import Mathlib

/-!
Shallow embedding of `src/PitchGuesser/PitchGuesser.py`.

The repository is a linear pipeline: fetch pitch-tracking records,
clean them, split train/test, fit (or load) a classifier, evaluate.
Dates are modelled as integers (days), pandas frames as lists of rows,
NaN-able columns as `Option`, and filesystem / network effects as
explicit traces (a list of writes, a list of feed queries).
-/

namespace PitchGuesser

/-- One raw statcast record, restricted to the columns the pipeline
inspects.  Nullable columns are `Option`; `game_date` is a day number. -/
structure RawRow where
  release_speed : Option ℚ
  release_pos_x : Option ℚ
  release_pos_z : Option ℚ
  game_date : Int
  pitch_name : Option String
  p_throws : String
  type : String
  pitcher : Int
  deriving DecidableEq, Repr

/-- `PitchData.pitches` (line 38): the fixed six recognized pitch labels. -/
def pitches : List String :=
  ["4-Seam Fastball", "Changeup", "Curveball", "Cutter", "Sinker", "Slider"]

/-- Models `df.game_date.min()`: `none` on an empty frame (pandas NaN, every
comparison against it is false). -/
def minGameDate : List RawRow → Option Int
  | [] => none
  | r :: rs => some ((rs.map (fun x => x.game_date)).foldl min r.game_date)

/-- Models `df.game_date.max()`: `none` on an empty frame. -/
def maxGameDate : List RawRow → Option Int
  | [] => none
  | r :: rs => some ((rs.map (fun x => x.game_date)).foldl max r.game_date)

/-- Source `PitchData.__get_from_date` (lines 43-49).  The external feed
`bball.statcast` is an explicit parameter; the second component records
the `(start_dt, end_dt)` spans actually queried. -/
def get_from_date (statcast : Int → Int → List RawRow) (start_ts : Int)
    (df : List RawRow) : List RawRow × List (Int × Int) :=
  match minGameDate df with
  | none => (df, [])
  | some m =>
    if start_ts < m then (df ++ statcast start_ts m, [(start_ts, m)])
    else (df, [])

/-- Source `PitchData.__get_to_date` (lines 51-57). -/
def get_to_date (statcast : Int → Int → List RawRow) (end_ts : Int)
    (df : List RawRow) : List RawRow × List (Int × Int) :=
  match maxGameDate df with
  | none => (df, [])
  | some m =>
    if end_ts > m + 1 then (df ++ statcast m end_ts, [(m, end_ts)])
    else (df, [])

/-- Models `df.dropna(subset=['release_speed', 'release_pos_x', 'release_pos_z'])`
(line 60). -/
def dropnaRelease (df : List RawRow) : List RawRow :=
  df.filter fun r =>
    r.release_speed.isSome && r.release_pos_x.isSome && r.release_pos_z.isSome

/-- A cleaned row: the raw columns plus the boolean indicator columns
added by `__split_cat`. -/
structure CatRow extends RawRow where
  lefty : Bool
  righty : Bool
  ball : Bool
  strike : Bool
  hit_in_play : Bool
  deriving DecidableEq, Repr

/-- Source `PitchData.__split_cat` (lines 69-76): derive the boolean indicator
columns from `p_throws` and `type`. -/
def split_cat (df : List RawRow) : List CatRow :=
  df.map fun r =>
    { toRawRow := r
      lefty := r.p_throws == "L"
      righty := r.p_throws == "R"
      ball := r.type == "B"
      strike := r.type == "S"
      hit_in_play := r.type == "X" }

/-- The names of the indicator columns `__split_cat` assigns, in source
order (lines 71-75). -/
def split_cat_derived : List String :=
  ["lefty", "righty", "ball", "strike", "hit_in_play"]

/-- Source `PitchData.__get_cols` (lines 87-89).
Modelled from the spec: the column whitelist `data/cols.csv` is an
external configuration file that is not part of the repository; the
projection keeps (at least) every column the later pipeline stages read,
so on the tracked columns it is the identity. -/
def get_cols (df : List CatRow) : List CatRow := df

/-- Forward fill of one cell: keep the value if present, else the last
seen value of that column. -/
def orFill {β : Type} : Option β → Option β → Option β
  | some v, _ => some v
  | none, prev => prev

/-- Models `df.fillna(method='ffill')` (line 64), threaded over the nullable
tracked columns. -/
def ffillLoop (ps px pz : Option ℚ) (pn : Option String) :
    List CatRow → List CatRow
  | [] => []
  | r :: rs =>
    let s := orFill r.release_speed ps
    let x := orFill r.release_pos_x px
    let z := orFill r.release_pos_z pz
    let n := orFill r.pitch_name pn
    { r with release_speed := s, release_pos_x := x, release_pos_z := z,
             pitch_name := n } :: ffillLoop s x z n rs

def ffillDf (df : List CatRow) : List CatRow := ffillLoop none none none none df

/-- Models `series.isin(l)` on a nullable string column: NaN is never in `l`. -/
def isinOpt (o : Option String) (l : List String) : Bool :=
  match o with
  | some s => l.contains s
  | none => false

/-- pandas `<=` on a nullable string sort key, missing values last
(`na_position='last'`). -/
def optStrLe : Option String → Option String → Bool
  | some a, some b => decide (a ≤ b)
  | some _, none => true
  | none, some _ => false
  | none, none => true

/-- The `sort_values(by=['pitch_name', 'game_date', 'pitcher'])` key
order (line 66). -/
def rowLe (a b : CatRow) : Bool :=
  if a.pitch_name = b.pitch_name then
    if a.game_date = b.game_date then decide (a.pitcher ≤ b.pitcher)
    else decide (a.game_date ≤ b.game_date)
  else optStrLe a.pitch_name b.pitch_name

/-- Stable insertion of one element for `sortByLe`. -/
def insertLe {α : Type} (le : α → α → Bool) (a : α) : List α → List α
  | [] => [a]
  | b :: bs => if le a b then a :: b :: bs else b :: insertLe le a bs

/-- Insertion sort with a boolean comparator (models `sort_values`). -/
def sortByLe {α : Type} (le : α → α → Bool) : List α → List α
  | [] => []
  | a :: as => insertLe le a (sortByLe le as)

/-- The `tmpdir`-relative cache path `self.__pkl` (line 37). -/
def pitch_data_pkl (tmpdir : String) : String := tmpdir ++ "/pitch_data.pkl"

/-- Result of `__get_data` / `__clean_data`: the cleaned frame plus the
trace of `to_pickle` writes `(path, frame)`. -/
structure RunResult where
  cleaned : List CatRow
  writes : List (String × List RawRow)
  deriving Repr

/-- Source `PitchData.__clean_data` (lines 59-67): drop rows with missing
release data, persist the snapshot, derive indicator columns, project,
forward-fill, keep the six recognized pitch labels, sort, and finally
restrict to the requested date range. -/
def clean_data (tmpdir : String) (start_ts end_ts : Int) (df : List RawRow) :
    RunResult :=
  let dfa := dropnaRelease df
  let dfb := split_cat dfa
  let dfc := get_cols dfb
  let dfd := ffillDf dfc
  let dfe := sortByLe rowLe (dfd.filter fun r => isinOpt r.pitch_name pitches)
  let dff := dfe.filter fun r =>
    decide (start_ts ≤ r.game_date) && decide (r.game_date ≤ end_ts)
  ⟨dff, [(pitch_data_pkl tmpdir, dfa)]⟩

/-- Source `PitchData.__get_data` (lines 78-85): take the cached snapshot when
it exists and `refresh` is false, otherwise query the feed for the full
range; then extend at both ends and clean. -/
def get_data (statcast : Int → Int → List RawRow) (tmpdir : String)
    (start_ts end_ts : Int) (cacheExists refresh : Bool)
    (cached : List RawRow) : RunResult :=
  let df0 := if cacheExists && !refresh then cached else statcast start_ts end_ts
  let df1 := (get_from_date statcast start_ts df0).1
  let df2 := (get_to_date statcast end_ts df1).1
  clean_data tmpdir start_ts end_ts df2

/-- Source `PitchModelBuild.__get_exp_model_path` (lines 133-136).
`self.model_pkl.split('.')` is only well defined on a path with exactly
one dot (otherwise tuple unpacking raises); other shapes are left
unchanged here and are never reached by the claims. -/
def get_exp_model_path (model_pkl exper : String) : String :=
  match model_pkl.splitOn "." with
  | [fname, ext] => fname ++ "_" ++ exper ++ "." ++ ext
  | _ => model_pkl

/-- The column loop of experiment 1 (lines 141-149).  `i` is the running
integer step, `j` the enumeration index; `i` is incremented before being
used whenever `j % 3 == 0`.  A feature frame is an ordered list of named
columns. -/
def scale_loop {α : Type} [Field α] (i j : ℕ) :
    List (String × List α) → List (String × List α)
  | [] => []
  | (name, col) :: rest =>
    if j % 3 = 0 then
      (name, col.map fun x => x + ((i + 1 : ℕ) : α)) :: scale_loop (i + 1) (j + 1) rest
    else if j % 3 = 1 then
      (name, col.map fun x => x * ((i : ℕ) : α)) :: scale_loop i (j + 1) rest
    else
      (name, col.map fun x => x ^ i) :: scale_loop i (j + 1) rest

/-- Look a column up by name (`X.plate_x` etc.); the source raises on a
missing column, which no claim reaches. -/
def getCol {α : Type} (X : List (String × List α)) (name : String) : List α :=
  match X.find? fun c => c.1 == name with
  | some c => c.2
  | none => []

/-- Models `np.sqrt(a**2 + b**2)`, with `sqrt` the (abstracted) numpy square
root. -/
def magCol2 {α : Type} [Field α] (sqrt : α → α) (a b : List α) : List α :=
  List.zipWith (fun x y => sqrt (x ^ 2 + y ^ 2)) a b

/-- Models `np.sqrt(a**2 + b**2 + c**2)`. -/
def magCol3 {α : Type} [Field α] (sqrt : α → α) (a b c : List α) : List α :=
  List.zipWith (fun x yz => sqrt (x ^ 2 + yz)) a
    (List.zipWith (fun y z => y ^ 2 + z ^ 2) b c)

/-- Models `len(X)`: the row count of the feature frame. -/
def nRows {α : Type} (X : List (String × List α)) : ℕ :=
  match X with
  | [] => 0
  | c :: _ => c.2.length

/-- Source `PitchModelBuild.__experiment` (lines 138-161).  `sqrt` abstracts
`np.sqrt`; `rand_cont` and `rand_int` abstract the two RNG draws of
experiment 5 (value at each row index).  Returns the possibly redirected
model path together with the transformed frame. -/
def experiment {α : Type} [Field α] (sqrt : α → α)
    (rand_cont rand_int : ℕ → α) (exp_flag : Int) (model_pkl : String)
    (X : List (String × List α)) : String × List (String × List α) :=
  if exp_flag = 1 then
    (get_exp_model_path model_pkl "scaled", scale_loop 1 0 X)
  else if exp_flag = 2 then
    (get_exp_model_path model_pkl "add_feature",
      X ++ [("plate_mag", magCol2 sqrt (getCol X "plate_x") (getCol X "plate_z")),
        ("release_pos_mag",
          magCol2 sqrt (getCol X "release_pos_x") (getCol X "release_pos_z")),
        ("pfx_mag", magCol2 sqrt (getCol X "pfx_x") (getCol X "pfx_z")),
        ("a_mag", magCol3 sqrt (getCol X "ax") (getCol X "ay") (getCol X "az")),
        ("v0_mag", magCol3 sqrt (getCol X "vx0") (getCol X "vy0") (getCol X "vz0"))])
  else if exp_flag = 5 then
    (get_exp_model_path model_pkl "random",
      X ++ [("random_cont", (List.range (nRows X)).map rand_cont),
        ("random_desc", (List.range (nRows X)).map rand_int)])
  else (model_pkl, X)

/-- Models `LabelEncoder().fit`: the classes are the distinct labels in sorted
(alphabetical) order, as computed by `np.unique`. -/
def le_classes (ys : List String) : List String :=
  List.insertionSort (fun a b => a ≤ b) ys.dedup

/-- Models `LabelEncoder().transform`: each label is replaced by its index in
the sorted class list. -/
def le_transform (classes : List String) (ys : List String) : List ℕ :=
  ys.map fun s => classes.indexOf s

/-- The `test_size` default (line 95) as an exact rational. -/
def test_size_frac : ℚ := 30 / 100

/-- sklearn's `_validate_shuffle_split` for a float `test_size`:
`n_test = ceil(test_size * n)`. -/
def n_test_of (test_size : ℚ) (n : ℕ) : ℕ := ⌈test_size * n⌉₊

/-- Models `train_test_split` (lines 185-190) on the seeded shuffle: sklearn
permutes the row indices with the seeded RNG, takes the first `n_test`
as the test set and the rest as the training set.  The permutation is
the explicit `perm` argument (a function of the fixed seed). -/
def train_test_split {α : Type} (ntest : ℕ) (perm : List α) :
    List α × List α :=
  (perm.drop ntest, perm.take ntest)

/-- Source `PitchModelBuild.__fit` (lines 192-199).  `fitModel` abstracts
`self.model.fit`, `loadModel` abstracts `pickle.load` from a path;
the second component is the trace of `pickle.dump` writes. -/
def fit {M F L : Type} (fitModel : M → F → L → M) (loadModel : String → M)
    (path_exists refresh : Bool) (model_pkl : String) (model : M)
    (X_train : F) (y_train : L) : M × List (String × M) :=
  if !path_exists || refresh then
    let m := fitModel model X_train y_train
    (m, [(model_pkl, m)])
  else (loadModel model_pkl, [])

/-- sklearn `confusion_matrix` label axis: the sorted distinct values of
`y_true ++ y_pred` (no explicit `labels` argument is passed). -/
def cm_labels (y_true y_pred : List ℕ) : List ℕ :=
  List.insertionSort (fun a b => a ≤ b) (y_true ++ y_pred).dedup

/-- Models `confusion_matrix(self.y_test, self.y_predict)` (line 243): entry
`(a, b)` counts the samples with true code `a` and predicted code `b`. -/
def confusion_matrix (y_true y_pred : List ℕ) : List (List ℕ) :=
  (cm_labels y_true y_pred).map fun a =>
    (cm_labels y_true y_pred).map fun b =>
      ((y_true.zip y_pred).filter fun p => p.1 == a && p.2 == b).length

/-- Source `PitchGuessPost.__get_cm` (lines 241-246): wrap the count matrix in
a frame whose row and column labels are the fixed `pitches` list. -/
def get_cm (y_true y_pred : List ℕ) : List (String × List (String × ℕ)) :=
  pitches.zip ((confusion_matrix y_true y_pred).map fun row => pitches.zip row)

/-- Look one labelled entry up in the framed confusion matrix. -/
def cm_entry (cm : List (String × List (String × ℕ))) (row col : String) :
    Option ℕ :=
  match cm.find? fun rw => rw.1 == row with
  | some rw =>
    match rw.2.find? fun cl => cl.1 == col with
    | some cl => some cl.2
    | none => none
  | none => none

/-- The pipeline stages `PitchModelBuild.__post_init__` can run, in
source order. -/
inductive Step where
  | getData
  | featureTypes
  | splitter
  | fitStep
  deriving DecidableEq, Repr

/-- Source `PitchModelBuild.__post_init__` (lines 98-106): the inherited
`PitchData.__post_init__` (the full data fetch and clean, `Step.getData`)
runs first; only then are the `model is None` / `model_pkl is None`
checks made.  Returns the trace of stages performed before returning or
raising, and the raised error message if any. -/
def pitchModelBuildPostInit (hasModel hasModelPkl : Bool) :
    List Step × Option String :=
  let steps := [Step.getData]
  if !hasModel then (steps, some "A model must be passed")
  else if !hasModelPkl then (steps, some "A model pickle file must be passed")
  else (steps ++ [Step.featureTypes, Step.splitter, Step.fitStep], none)

/-! ### Helper lemmas -/

theorem mem_insertLe {α : Type} (le : α → α → Bool) (a x : α) (l : List α) :
    x ∈ insertLe le a l ↔ x = a ∨ x ∈ l := by
  induction l with
  | nil => simp [insertLe]
  | cons b bs ih =>
    by_cases hb : le a b = true
    · simp [insertLe, hb]
    · simp only [insertLe, hb, if_neg, Bool.not_eq_true, List.mem_cons, ih]
      tauto

theorem mem_sortByLe {α : Type} (le : α → α → Bool) (x : α) (l : List α) :
    x ∈ sortByLe le l ↔ x ∈ l := by
  induction l with
  | nil => simp [sortByLe]
  | cons a as ih => simp [sortByLe, mem_insertLe, ih]

/-! ### Claims -/

/-- C3: the feed is queried for an earlier span iff the base frame's
minimum game date is strictly later than the requested start, and for a
later span iff the requested end exceeds the base maximum plus one day. -/
theorem c3_feed_query_conditions (f g : Int → Int → List RawRow) (s e : Int)
    (df : List RawRow) (mn mx : Int) (hmn : minGameDate df = some mn)
    (hmx : maxGameDate df = some mx) :
    ((get_from_date f s df).2 ≠ [] ↔ s < mn) ∧
    ((get_to_date g e df).2 ≠ [] ↔ e > mx + 1) := by
  constructor
  · unfold get_from_date
    rw [hmn]
    by_cases h : s < mn <;> simp [h]
  · unfold get_to_date
    rw [hmx]
    by_cases h : e > mx + 1 <;> simp [h]

/-- Witness for C3 on a one-row frame with game date 5: the earlier span
is queried for start 0, and the later span for end 10. -/
theorem c3_feed_query_conditions_witness :
    minGameDate [⟨some 1, some 2, some 3, 5, some "Slider", "R", "S", 7⟩] = some 5 ∧
    maxGameDate [⟨some 1, some 2, some 3, 5, some "Slider", "R", "S", 7⟩] = some 5 ∧
    (((get_from_date (fun _ _ => []) 0
        [⟨some 1, some 2, some 3, 5, some "Slider", "R", "S", 7⟩]).2 ≠ []) ↔ (0 : Int) < 5) ∧
    (((get_to_date (fun _ _ => []) 10
        [⟨some 1, some 2, some 3, 5, some "Slider", "R", "S", 7⟩]).2 ≠ []) ↔ (10 : Int) > 5 + 1) :=
  ⟨rfl, rfl,
    (c3_feed_query_conditions (fun _ _ => []) (fun _ _ => []) 0 10
      [⟨some 1, some 2, some 3, 5, some "Slider", "R", "S", 7⟩] 5 5 rfl rfl).1,
    (c3_feed_query_conditions (fun _ _ => []) (fun _ _ => []) 0 10
      [⟨some 1, some 2, some 3, 5, some "Slider", "R", "S", 7⟩] 5 5 rfl rfl).2⟩

/-- C2 counterexample: the cleaner does not derive six indicator
columns; `__split_cat` assigns exactly five. -/
theorem c2_counterexample : ¬ split_cat_derived.length = 6 := by decide

/-- C2 (amended): `__split_cat` derives exactly five boolean indicator
columns — lefty, righty, ball, strike, hit_in_play — from the
handedness field `p_throws` and the outcome field `type`, leaving the
underlying raw columns unchanged, before the column projection. -/
theorem c2_split_cat_five_indicators (df : List RawRow) (i : ℕ) (r : RawRow)
    (h : df[i]? = some r) :
    split_cat_derived.length = 5 ∧
    ∃ r', (split_cat df)[i]? = some r' ∧ r'.toRawRow = r ∧
      r'.lefty = (r.p_throws == "L") ∧ r'.righty = (r.p_throws == "R") ∧
      r'.ball = (r.type == "B") ∧ r'.strike = (r.type == "S") ∧
      r'.hit_in_play = (r.type == "X") := by
  refine ⟨rfl, ?_⟩
  unfold split_cat
  rw [List.getElem?_map, h]
  exact ⟨_, rfl, rfl, rfl, rfl, rfl, rfl, rfl⟩

/-- Witness for C2 (amended) on a one-row frame. -/
theorem c2_split_cat_five_indicators_witness :
    ([(⟨some 1, some 2, some 3, 5, some "Slider", "L", "B", 7⟩ : RawRow)][0]? =
      some ⟨some 1, some 2, some 3, 5, some "Slider", "L", "B", 7⟩) ∧
    (split_cat_derived.length = 5 ∧
      ∃ r', (split_cat [⟨some 1, some 2, some 3, 5, some "Slider", "L", "B", 7⟩])[0]? = some r' ∧
        r'.toRawRow = ⟨some 1, some 2, some 3, 5, some "Slider", "L", "B", 7⟩ ∧
        r'.lefty = ("L" == "L") ∧ r'.righty = ("L" == "R") ∧
        r'.ball = ("B" == "B") ∧ r'.strike = ("B" == "S") ∧
        r'.hit_in_play = ("B" == "X")) :=
  ⟨rfl, c2_split_cat_five_indicators
    [⟨some 1, some 2, some 3, 5, some "Slider", "L", "B", 7⟩] 0
    ⟨some 1, some 2, some 3, 5, some "Slider", "L", "B", 7⟩ rfl⟩

/-- C5: if the model cache file is absent or `refresh` is set, the
classifier is fitted on the training split and the fitted result is the
single write to the cache path; otherwise the cached fit is loaded,
nothing is written, and the supplied training data is ignored. -/
theorem c5_fit_cache_policy {M F L : Type} (fitModel : M → F → L → M)
    (loadModel : String → M) (path_exists refresh : Bool) (pkl : String)
    (model : M) (X : F) (y : L) :
    ((path_exists = false ∨ refresh = true) →
      fit fitModel loadModel path_exists refresh pkl model X y =
        (fitModel model X y, [(pkl, fitModel model X y)])) ∧
    (path_exists = true → refresh = false →
      ∀ (X' : F) (y' : L),
        fit fitModel loadModel path_exists refresh pkl model X' y' =
          (loadModel pkl, [])) := by
  constructor
  · rintro (rfl | rfl) <;> simp [fit]
  · rintro rfl rfl X' y'
    simp [fit]

/-- Witness for C5: both branches at concrete inputs over `ℕ`. -/
theorem c5_fit_cache_policy_witness :
    ((false = false ∨ false = true) ∧
      fit (fun m a b : ℕ => m + a + b) (fun _ => 99) false false "p.pkl" 1 2 3 =
        (6, [("p.pkl", 6)])) ∧
    (fit (fun m a b : ℕ => m + a + b) (fun _ => 99) true false "p.pkl" 1 2 3 =
      (99, [])) :=
  ⟨⟨Or.inl rfl,
    (c5_fit_cache_policy (fun m a b : ℕ => m + a + b) (fun _ => 99)
      false false "p.pkl" 1 2 3).1 (Or.inl rfl)⟩,
    (c5_fit_cache_policy (fun m a b : ℕ => m + a + b) (fun _ => 99)
      true false "p.pkl" 1 2 3).2 rfl rfl 2 3⟩

/-- C9 counterexample: with the classifier missing, the constructor does
raise, but the inherited data stage (`Step.getData`, the full fetch and
clean) has already run — the error is not raised before all other
pipeline work. -/
theorem c9_counterexample :
    (pitchModelBuildPostInit false true).2 = some "A model must be passed" ∧
    (pitchModelBuildPostInit false true).1 ≠ [] ∧
    Step.getData ∈ (pitchModelBuildPostInit false true).1 := by decide

/-- C9 (amended): constructing without a classifier or without a model
cache path raises an explicit error, after the inherited data stage has
run but before feature typing, splitting, or fitting. -/
theorem c9_missing_argument_error (hasModel hasModelPkl : Bool)
    (h : hasModel = false ∨ hasModelPkl = false) :
    (pitchModelBuildPostInit hasModel hasModelPkl).2.isSome = true ∧
    (pitchModelBuildPostInit hasModel hasModelPkl).1 = [Step.getData] ∧
    Step.splitter ∉ (pitchModelBuildPostInit hasModel hasModelPkl).1 ∧
    Step.fitStep ∉ (pitchModelBuildPostInit hasModel hasModelPkl).1 := by
  rcases h with rfl | rfl
  · cases hasModelPkl <;> decide
  · cases hasModel <;> decide

/-- Witness for C9 (amended) with the classifier missing. -/
theorem c9_missing_argument_error_witness :
    (false = false ∨ true = false) ∧
    (pitchModelBuildPostInit false true).2.isSome = true ∧
    (pitchModelBuildPostInit false true).1 = [Step.getData] ∧
    Step.splitter ∉ (pitchModelBuildPostInit false true).1 ∧
    Step.fitStep ∉ (pitchModelBuildPostInit false true).1 :=
  ⟨Or.inl rfl, c9_missing_argument_error false true (Or.inl rfl)⟩

/-- C10: for any experiment flag outside `{1, 2, 5}` — in particular 3
and 4 — the experiment step leaves both the feature frame and the model
cache path unchanged. -/
theorem c10_experiment_identity {α : Type} [Field α] (sqrt : α → α)
    (rc ri : ℕ → α) (flag : Int) (pkl : String) (X : List (String × List α))
    (h1 : flag ≠ 1) (h2 : flag ≠ 2) (h5 : flag ≠ 5) :
    experiment sqrt rc ri flag pkl X = (pkl, X) := by
  unfold experiment
  rw [if_neg h1, if_neg h2, if_neg h5]

/-- Witness for C10 at the undocumented flags 3 and 4. -/
theorem c10_experiment_identity_witness :
    ((3 : Int) ≠ 1 ∧ (3 : Int) ≠ 2 ∧ (3 : Int) ≠ 5) ∧
    experiment (fun x : ℚ => x) (fun _ => 0) (fun _ => 0) 3 "m.pkl" [("a", [1])] =
      ("m.pkl", [("a", [1])]) ∧
    experiment (fun x : ℚ => x) (fun _ => 0) (fun _ => 0) 4 "m.pkl" [("a", [1])] =
      ("m.pkl", [("a", [1])]) :=
  ⟨⟨by decide, by decide, by decide⟩,
    c10_experiment_identity (fun x : ℚ => x) (fun _ => 0) (fun _ => 0) 3 "m.pkl"
      [("a", [1])] (by decide) (by decide) (by decide),
    c10_experiment_identity (fun x : ℚ => x) (fun _ => 0) (fun _ => 0) 4 "m.pkl"
      [("a", [1])] (by decide) (by decide) (by decide)⟩

/-- C1: every row of the cleaned output carries one of the six
recognized pitch labels and a game date inside the requested
`[start, end]` range, for any feed, cache state and date range. -/
theorem c1_cleaned_labels_and_range (f : Int → Int → List RawRow)
    (tm : String) (s e : Int) (ce rf : Bool) (cached : List RawRow)
    (r : CatRow) (hr : r ∈ (get_data f tm s e ce rf cached).cleaned) :
    (∃ p, p ∈ pitches ∧ r.pitch_name = some p) ∧
    s ≤ r.game_date ∧ r.game_date ≤ e := by
  simp only [get_data, clean_data] at hr
  rw [List.mem_filter] at hr
  obtain ⟨hr1, hdate⟩ := hr
  rw [mem_sortByLe, List.mem_filter] at hr1
  obtain ⟨_, hpitch⟩ := hr1
  refine ⟨?_, ?_⟩
  · cases hpn : r.pitch_name with
    | none => rw [hpn] at hpitch; simp [isinOpt] at hpitch
    | some p =>
      rw [hpn] at hpitch
      refine ⟨p, ?_, rfl⟩
      simpa [isinOpt] using hpitch
  · simpa using hdate

/-- Witness for C1: a cached single-row run over `[0, 10]` with game
date 5 and label Slider survives cleaning with the claimed bounds. -/
theorem c1_cleaned_labels_and_range_witness :
    ((⟨⟨some 1, some 2, some 3, 5, some "Slider", "R", "S", 7⟩,
        false, true, false, true, false⟩ : CatRow) ∈
      (get_data (fun _ _ => []) "T" 0 10 true false
        [⟨some 1, some 2, some 3, 5, some "Slider", "R", "S", 7⟩]).cleaned) ∧
    ((∃ p, p ∈ pitches ∧ (some "Slider" : Option String) = some p) ∧
      (0 : Int) ≤ 5 ∧ (5 : Int) ≤ 10) :=
  ⟨by decide,
    c1_cleaned_labels_and_range (fun _ _ => []) "T" 0 10 true false
      [⟨some 1, some 2, some 3, 5, some "Slider", "R", "S", 7⟩]
      ⟨⟨some 1, some 2, some 3, 5, some "Slider", "R", "S", 7⟩,
        false, true, false, true, false⟩ (by decide)⟩

/-- C4: every run writes the raw snapshot exactly once, to the fixed
cache path, and the written frame is the dropna of the full assembled
base range — every feature-complete assembled row is in the snapshot,
whether or not its date lies in the requested range (the write precedes
the date-range restriction). -/
theorem c4_snapshot_persistence (f : Int → Int → List RawRow) (tm : String)
    (s e : Int) (ce rf : Bool) (cached : List RawRow) :
    ((get_data f tm s e ce rf cached).writes).map Prod.fst = [pitch_data_pkl tm] ∧
    ((get_data f tm s e ce rf cached).writes).map Prod.snd =
      [dropnaRelease (get_to_date f e (get_from_date f s
        (if ce && !rf then cached else f s e)).1).1] ∧
    ∀ r ∈ (get_to_date f e (get_from_date f s
        (if ce && !rf then cached else f s e)).1).1,
      (r.release_speed.isSome && r.release_pos_x.isSome &&
        r.release_pos_z.isSome) = true →
      ∀ snap ∈ ((get_data f tm s e ce rf cached).writes).map Prod.snd,
        r ∈ snap := by
  refine ⟨rfl, rfl, ?_⟩
  intro r hr hc snap hsnap
  simp only [get_data, clean_data, List.map_cons, List.map_nil,
    List.mem_singleton] at hsnap
  subst hsnap
  exact List.mem_filter.2 ⟨hr, hc⟩

/-- Witness for C4: with a cached base holding game dates 5 and 20 and a
requested range `[0, 10]`, the single write goes to the fixed path and
the out-of-range date-20 row is still in the persisted snapshot. -/
theorem c4_snapshot_persistence_witness :
    ((get_data (fun _ _ => []) "T" 0 10 true false
      [⟨some 1, some 2, some 3, 5, some "Slider", "R", "S", 7⟩,
       ⟨some 1, some 2, some 3, 20, some "Slider", "R", "S", 8⟩]).writes).map Prod.fst =
      [pitch_data_pkl "T"] ∧
    (⟨some 1, some 2, some 3, 20, some "Slider", "R", "S", 8⟩ : RawRow) ∈
      dropnaRelease
        [⟨some 1, some 2, some 3, 5, some "Slider", "R", "S", 7⟩,
         ⟨some 1, some 2, some 3, 20, some "Slider", "R", "S", 8⟩] :=
  ⟨(c4_snapshot_persistence (fun _ _ => []) "T" 0 10 true false
      [⟨some 1, some 2, some 3, 5, some "Slider", "R", "S", 7⟩,
       ⟨some 1, some 2, some 3, 20, some "Slider", "R", "S", 8⟩]).1,
    (c4_snapshot_persistence (fun _ _ => []) "T" 0 10 true false
      [⟨some 1, some 2, some 3, 5, some "Slider", "R", "S", 7⟩,
       ⟨some 1, some 2, some 3, 20, some "Slider", "R", "S", 8⟩]).2.2
      ⟨some 1, some 2, some 3, 20, some "Slider", "R", "S", 8⟩
      (by decide) (by decide)
      (dropnaRelease
        [⟨some 1, some 2, some 3, 5, some "Slider", "R", "S", 7⟩,
         ⟨some 1, some 2, some 3, 20, some "Slider", "R", "S", 8⟩])
      (by decide)⟩

/-- C6: for any seeded shuffle (a duplicate-free permutation of the row
indices), the train/test partition is disjoint, the two sizes sum to the
total row count, and the test size is the ceiling of the configured
fraction (0.30) of the total — within one of the exact fraction. -/
theorem c6_split_partition (perm : List ℕ) (n : ℕ) (hlen : perm.length = n)
    (hnd : perm.Nodup) :
    (∀ i ∈ (train_test_split (n_test_of test_size_frac n) perm).1,
      i ∉ (train_test_split (n_test_of test_size_frac n) perm).2) ∧
    (train_test_split (n_test_of test_size_frac n) perm).1.length +
      (train_test_split (n_test_of test_size_frac n) perm).2.length = n ∧
    (train_test_split (n_test_of test_size_frac n) perm).2.length =
      n_test_of test_size_frac n ∧
    |((train_test_split (n_test_of test_size_frac n) perm).2.length : ℚ) -
      test_size_frac * n| < 1 := by
  have hfrac : (0 : ℚ) ≤ test_size_frac * n := by
    have : (0 : ℚ) ≤ (n : ℚ) := Nat.cast_nonneg n
    unfold test_size_frac
    nlinarith
  have hk : n_test_of test_size_frac n ≤ n := by
    unfold n_test_of
    rw [Nat.ceil_le]
    have : (0 : ℚ) ≤ (n : ℚ) := Nat.cast_nonneg n
    unfold test_size_frac
    nlinarith
  have htake : (train_test_split (n_test_of test_size_frac n) perm).2.length =
      n_test_of test_size_frac n := by
    simp only [train_test_split, List.length_take, hlen]
    omega
  refine ⟨?_, ?_, htake, ?_⟩
  · intro i hi
    exact fun hti =>
      (List.disjoint_take_drop hnd le_rfl) hti hi
  · simp only [train_test_split, List.length_take, List.length_drop, hlen]
    omega
  · rw [htake]
    unfold n_test_of
    rw [abs_of_nonneg (by linarith [Nat.le_ceil (test_size_frac * n)])]
    linarith [Nat.ceil_lt_add_one hfrac]

/-- Witness for C6 on the four-element shuffle `[10, 11, 12, 13]`:
test size `⌈1.2⌉ = 2`, train and test disjoint and summing to 4. -/
theorem c6_split_partition_witness :
    ([10, 11, 12, 13] : List ℕ).Nodup ∧
    ((∀ i ∈ (train_test_split (n_test_of test_size_frac 4) [10, 11, 12, 13]).1,
      i ∉ (train_test_split (n_test_of test_size_frac 4) [10, 11, 12, 13]).2) ∧
    (train_test_split (n_test_of test_size_frac 4) [10, 11, 12, 13]).1.length +
      (train_test_split (n_test_of test_size_frac 4) [10, 11, 12, 13]).2.length = 4 ∧
    (train_test_split (n_test_of test_size_frac 4) [10, 11, 12, 13]).2.length =
      n_test_of test_size_frac 4 ∧
    |((train_test_split (n_test_of test_size_frac 4) [10, 11, 12, 13]).2.length : ℚ) -
      test_size_frac * 4| < 1) :=
  ⟨by decide, c6_split_partition [10, 11, 12, 13] 4 rfl (by decide)⟩

/-- Invariant of the experiment-1 column walk: entering the loop at
enumeration index `j`, the running step holds `1 + (j + 2) / 3`, and the
column `k` positions further on is transformed according to
`(j + k) % 3` with step `2 + (j + k) / 3`. -/
theorem scale_loop_get {α : Type} [Field α] :
    ∀ (X : List (String × List α)) (j k : ℕ),
    (scale_loop (1 + (j + 2) / 3) j X)[k]? =
      (X[k]?).map fun c =>
        (c.1,
          if (j + k) % 3 = 0 then c.2.map fun x => x + ((2 + (j + k) / 3 : ℕ) : α)
          else if (j + k) % 3 = 1 then c.2.map fun x => x * ((2 + (j + k) / 3 : ℕ) : α)
          else c.2.map fun x => x ^ (2 + (j + k) / 3)) := by
  intro X
  induction X with
  | nil => intro j k; simp [scale_loop]
  | cons c rest ih =>
    intro j k
    obtain ⟨name, col⟩ := c
    by_cases hj0 : j % 3 = 0
    · cases k with
      | zero =>
        have h1 : 1 + (j + 2) / 3 + 1 = 2 + (j + 0) / 3 := by omega
        have h2 : (j + 0) % 3 = 0 := by omega
        simp [scale_loop, hj0, h1, h2]
      | succ k =>
        have h1 : 1 + (j + 2) / 3 + 1 = 1 + (j + 1 + 2) / 3 := by omega
        have h2 : j + 1 + k = j + (k + 1) := by omega
        have := ih (j + 1) k
        rw [h2] at this
        simp only [scale_loop, hj0, if_pos, List.getElem?_cons_succ, h1, this]
    · by_cases hj1 : j % 3 = 1
      · cases k with
        | zero =>
          have h2 : (j + 0) % 3 = 1 := by omega
          have h3 : 1 + (j + 2) / 3 = 2 + (j + 0) / 3 := by omega
          simp [scale_loop, hj0, hj1, h2, h3]
        | succ k =>
          have h1 : 1 + (j + 2) / 3 = 1 + (j + 1 + 2) / 3 := by omega
          have h2 : j + 1 + k = j + (k + 1) := by omega
          have := ih (j + 1) k
          rw [h2] at this
          simp [scale_loop, hj0, hj1, h1, this]
      · have hj2 : j % 3 = 2 := by omega
        cases k with
        | zero =>
          have h2 : (j + 0) % 3 = 2 := by omega
          have h3 : 1 + (j + 2) / 3 = 2 + (j + 0) / 3 := by omega
          simp [scale_loop, hj0, hj1, h2, h3]
        | succ k =>
          have h1 : 1 + (j + 2) / 3 = 1 + (j + 1 + 2) / 3 := by omega
          have h2 : j + 1 + k = j + (k + 1) := by omega
          have := ih (j + 1) k
          rw [h2] at this
          simp [scale_loop, hj0, hj1, h1, this]

/-- C7: in the scale experiment the column at position `j` is shifted by
the step when `j % 3 = 0`, multiplied by it when `j % 3 = 1`, and raised
to its power when `j % 3 = 2`; the step increments on every offset-0
position, so position `j` uses step `2 + j / 3` (the first shifted
column uses step 2). -/
theorem c7_scale_experiment {α : Type} [Field α]
    (X : List (String × List α)) (j : ℕ) :
    (scale_loop 1 0 X)[j]? =
      (X[j]?).map fun c =>
        (c.1,
          if j % 3 = 0 then c.2.map fun x => x + ((2 + j / 3 : ℕ) : α)
          else if j % 3 = 1 then c.2.map fun x => x * ((2 + j / 3 : ℕ) : α)
          else c.2.map fun x => x ^ (2 + j / 3)) := by
  have := scale_loop_get X 0 j
  simpa using this

/-- A sorted duplicate-free list is determined by its members. -/
theorem sorted_nodup_ext {α : Type} [LinearOrder α] {l l' : List α}
    (h1 : l.Nodup) (h2 : l'.Nodup) (hmem : ∀ a, a ∈ l ↔ a ∈ l')
    (hs : l.Sorted (fun a b => a ≤ b)) (hs' : l'.Sorted (fun a b => a ≤ b)) :
    l = l' :=
  List.eq_of_perm_of_sorted ((List.perm_ext_iff_of_nodup h1 h2).2 hmem) hs hs'

/-- Sorting the deduplicated values of `xs` yields exactly any sorted
duplicate-free list with the same members. -/
theorem insertionSort_dedup_eq {α : Type} [LinearOrder α] [DecidableEq α]
    (xs target : List α) (hnd : target.Nodup)
    (hs : target.Sorted (fun a b => a ≤ b))
    (hmem : ∀ a, a ∈ xs ↔ a ∈ target) :
    List.insertionSort (fun a b => a ≤ b) xs.dedup = target := by
  apply sorted_nodup_ext
  · exact (List.perm_insertionSort _ _).nodup_iff.2 (List.nodup_dedup xs)
  · exact hnd
  · intro a
    rw [(List.perm_insertionSort _ _).mem_iff, List.mem_dedup]
    exact hmem a
  · exact List.sorted_insertionSort _ _
  · exact hs

/-- The fixed six-label list is alphabetically sorted (by code points,
as `np.unique` sorts). -/
theorem pitches_sorted : List.Sorted (fun a b : String => a ≤ b) pitches := by
  simp only [pitches, List.sorted_cons, List.mem_cons, List.not_mem_nil, or_false,
    List.sorted_nil, and_true, forall_eq_or_imp, forall_eq, false_implies,
    forall_const, String.le_iff_toList_le]
  decide

/-- C8: the label encoder assigns codes in alphabetical order of the
distinct label set — which coincides with the fixed six-label `pitches`
list whenever the labels are exactly the six recognized pitches — and
the framed confusion matrix labelled row/column `(pitches r, pitches c)`
holds the count of test samples with true code `r` and predicted code
`c`, whenever all six codes occur. -/
theorem c8_confusion_matrix_labeling (ys : List String)
    (hys : ∀ s, s ∈ ys ↔ s ∈ pitches) (y_true y_pred : List ℕ)
    (hcodes : ∀ a, a ∈ y_true ++ y_pred ↔ a < 6) (r c : ℕ)
    (hr : r < 6) (hc : c < 6) :
    le_classes ys = pitches ∧
    cm_entry (get_cm y_true y_pred) (pitches.getD r "") (pitches.getD c "") =
      some (((y_true.zip y_pred).filter fun p => p.1 == r && p.2 == c).length) := by
  have hcls : le_classes ys = pitches := by
    unfold le_classes
    exact insertionSort_dedup_eq ys pitches (by decide) pitches_sorted hys
  have hlab : cm_labels y_true y_pred = [0, 1, 2, 3, 4, 5] := by
    unfold cm_labels
    apply insertionSort_dedup_eq
    · decide
    · decide
    · intro a
      rw [hcodes a]
      simp only [List.mem_cons, List.not_mem_nil, or_false]
      omega
  refine ⟨hcls, ?_⟩
  unfold get_cm confusion_matrix
  rw [hlab]
  interval_cases r <;> interval_cases c <;> rfl

/-- Witness for C8 with the six pitches as labels and each code
predicted once; the (Curveball, Cutter) cell counts zero samples. -/
theorem c8_confusion_matrix_labeling_witness :
    (∀ s, s ∈ pitches ↔ s ∈ pitches) ∧
    (∀ a, a ∈ ([0, 1, 2, 3, 4, 5] ++ [0, 1, 2, 3, 4, 5] : List ℕ) ↔ a < 6) ∧
    (2 : ℕ) < 6 ∧ (3 : ℕ) < 6 ∧
    le_classes pitches = pitches ∧
    cm_entry (get_cm [0, 1, 2, 3, 4, 5] [0, 1, 2, 3, 4, 5])
      (pitches.getD 2 "") (pitches.getD 3 "") = some 0 :=
  ⟨fun _ => Iff.rfl,
    by
      intro a
      simp only [List.mem_append, List.mem_cons, List.not_mem_nil, or_false]
      omega,
    by decide, by decide,
    (c8_confusion_matrix_labeling pitches (fun _ => Iff.rfl)
      [0, 1, 2, 3, 4, 5] [0, 1, 2, 3, 4, 5]
      (by
        intro a
        simp only [List.mem_append, List.mem_cons, List.not_mem_nil, or_false]
        omega)
      2 3 (by decide) (by decide)).1,
    by
      rw [(c8_confusion_matrix_labeling pitches (fun _ => Iff.rfl)
        [0, 1, 2, 3, 4, 5] [0, 1, 2, 3, 4, 5]
        (by
          intro a
          simp only [List.mem_append, List.mem_cons, List.not_mem_nil, or_false]
          omega)
        2 3 (by decide) (by decide)).2]
      rfl⟩

end PitchGuesser
